import Mathlib

/-!
Verification of the Fort-Lee-Percent-Bot attendance ledger and scoring engine.

The definitions below are a shallow embedding of `src/index.js`:

* a `Call` is the event record built by the `/call` slash-command handler;
* the store is the persisted document `{ nextId, calls }` (`loadData`/`saveData`);
* an attendance map (a JS object from user-id string to status string) is
  embedded as an insertion-ordered association list with distinct keys, which
  is exactly the observable behaviour of a JS object with string keys:
  assignment to a present key replaces the value in place, assignment to a
  fresh key appends, `delete` removes the key, `Object.entries`/`Object.keys`
  iterate in that order;
* JS numbers carrying point values (`0`, `0.5`, `1` and their sums) are
  embedded as rationals;
* external collaborators (the JS `Date` parser, the `Intl` formatters, the
  wall clock) are inputs to the handlers: the `Date` parse attempt arrives as
  an `Option Int` (`none` when the parse produced `NaN`, i.e. the string was
  empty or malformed), the formatters as opaque `Int → String` functions, the
  clock as an `Int` plus its ISO rendering.
-/

/-- One event record, as built by the `/call` handler in `src/index.js`. -/
structure Call where
  id : Nat
  cad : Nat
  typeShort : String
  type : String
  location : String
  details : String
  points : ℚ
  countsAgainst : Bool
  createdAt : String
  ridgeDate : String
  countTowards : String
  monthSort : String
  quarter : String
  attendance : List (String × String)
deriving DecidableEq

/-- The persisted document `{ nextId, calls }` of the data store. -/
structure Store where
  nextId : Nat
  calls : List Call
deriving DecidableEq

/-- Lookup in an attendance object: `c.attendance?.[userId]`. -/
def lookupK (u : String) : List (String × String) → Option String
  | [] => none
  | p :: rest => if p.1 = u then some p.2 else lookupK u rest

/-- Assignment `attendance[uid] = st` on a JS object: replace in place if the
key is present, append otherwise. -/
def upsert (u st : String) : List (String × String) → List (String × String)
  | [] => [(u, st)]
  | p :: rest => if p.1 = u then (u, st) :: rest else p :: upsert u st rest

/-- `delete attendance[uid]` on a JS object (keys are distinct, so removing
every pair with the key equals removing the one entry). -/
def eraseK (u : String) (l : List (String × String)) : List (String × String) :=
  l.filter (fun p => p.1 != u)

/-- Mutation of the first list element satisfying `p`, as
`data.calls.find(...)` followed by in-place mutation does. -/
def updateFirst (p : Call → Bool) (f : Call → Call) : List Call → List Call
  | [] => []
  | c :: rest => if p c then f c :: rest else c :: updateFirst p f rest

/-- `buildAttendanceLists` of `src/index.js`: splits an attendance object into
the `made`, `silent`, `missed` user-id lists, in iteration order; any other
status string is dropped. -/
def buildAttendanceLists :
    List (String × String) → List String × List String × List String
  | [] => ([], [], [])
  | (uid, st) :: rest =>
    let r := buildAttendanceLists rest
    if st = "MADE" then (uid :: r.1, r.2.1, r.2.2)
    else if st = "SILENT" then (r.1, uid :: r.2.1, r.2.2)
    else if st = "MISSED" then (r.1, r.2.1, uid :: r.2.2)
    else r

/-- The accumulator and result record of `calcStats`. -/
structure Stats where
  possible : ℚ
  earned : ℚ
  pct : ℚ
  made : Nat
  silent : Nat
  missed : Nat
deriving DecidableEq

/-- The body of the `for (const c of calls)` loop of `calcStats`. -/
def scoreStep (userId : String) (s : Stats) (c : Call) : Stats :=
  let p := c.points
  if p = 0 then s
  else
    let resp := lookupK userId c.attendance
    if c.countsAgainst then
      if resp = some "MADE" then
        { s with possible := s.possible + p, earned := s.earned + p,
                 made := s.made + 1 }
      else if resp = some "SILENT" then
        { s with possible := s.possible + p,
                 earned := s.earned + min (1/2 : ℚ) p, silent := s.silent + 1 }
      else
        { s with possible := s.possible + p, missed := s.missed + 1 }
    else
      if resp = some "MADE" then
        { s with possible := s.possible + p, earned := s.earned + p,
                 made := s.made + 1 }
      else if resp = some "SILENT" then
        { s with possible := s.possible + p,
                 earned := s.earned + min (1/2 : ℚ) p, silent := s.silent + 1 }
      else
        { s with missed := s.missed + 1 }

/-- `calcStats(userId, calls)` of `src/index.js`. -/
def calcStats (userId : String) (calls : List Call) : Stats :=
  let s := calls.foldl (scoreStep userId) ⟨0, 0, 0, 0, 0, 0⟩
  { s with pct := if s.possible > 0 then s.earned / s.possible * 100 else 0 }

/-- `parseUserDate`: the JS `Date` parse attempt is `parsed` (`none` for an
empty or malformed string, whose `new Date(s)` is `NaN`); the handler falls
back to the current time `now` in that case. -/
def parseUserDate (parsed : Option Int) (now : Int) : Int :=
  match parsed with
  | some t => t
  | none => now

/-- The `Intl`-based formatters (`formatRidgefieldDate`, `monthKey`,
`monthKeySortable`, `quarterKey`), external to the core, as opaque inputs. -/
structure DateFmt where
  ridge : Int → String
  monthDisp : Int → String
  monthSortKey : Int → String
  quarterKey : Int → String

/-- The `/call` slash-command handler: builds the new call record, assigns
`id = data.nextId++` (and the same value as the auto CAD number), pushes it
and saves. Returns the new store and the created call. -/
def callCommand (fmt : DateFmt) (d : Store) (location : String)
    (dateParsed : Option Int) (typ : String) (points : ℚ)
    (countsAgainstOpt : Option Bool) (detailsOpt : Option String)
    (now : Int) (nowIso : String) : Store × Call :=
  let countsAgainst := countsAgainstOpt.getD true
  let details := detailsOpt.getD ""
  let dt := parseUserDate dateParsed now
  let cad := d.nextId
  let call : Call :=
    { id := d.nextId, cad := cad, typeShort := typ.toUpper, type := typ,
      location := location, details := details, points := points,
      countsAgainst := countsAgainst, createdAt := nowIso,
      ridgeDate := fmt.ridge dt, countTowards := fmt.monthDisp dt,
      monthSort := fmt.monthSortKey dt, quarter := fmt.quarterKey dt,
      attendance := [] }
  ({ nextId := d.nextId + 1, calls := d.calls ++ [call] }, call)

/-- The attendance-button handler: find the call with the clicked id, upsert
`attendance[user] = status`, save; if no call has the id, reply "Call not
found" and leave the store untouched. -/
def recordResponse (d : Store) (eventId : Nat) (u st : String) : Store :=
  { d with
    calls := updateFirst (fun c => c.id == eventId)
      (fun c => { c with attendance := upsert u st c.attendance }) d.calls }

/-- `data.calls.find(c => c.id === id)`, the read used by the handlers. -/
def getCall (d : Store) (eventId : Nat) : Option Call :=
  d.calls.find? (fun c => c.id == eventId)

/-- The `/resetpercent` handler: for each call,
`if (call.attendance && call.attendance[userId]) delete call.attendance[userId]`
— the entry is deleted only when its value is JS-truthy (a non-empty string). -/
def resetUserResponses (d : Store) (u : String) : Store :=
  { d with
    calls := d.calls.map (fun c =>
      match lookupK u c.attendance with
      | some s => if s = "" then c else { c with attendance := eraseK u c.attendance }
      | none => c) }

/-- The default document `loadData` returns when the data file is absent. -/
def initialData : Store := ⟨1, []⟩

/-- `loadData`: parse the persisted file if readable, else the default. -/
def loadData (persisted : Option Store) : Store :=
  persisted.getD initialData

/-- The id invariant the store maintains: the persisted `nextId` strictly
exceeds every stored call id. -/
def idInv (d : Store) : Prop := ∀ c ∈ d.calls, c.id < d.nextId

/-- `users.add(uid)` on a JS `Set`: insertion order is kept, a present
element is not moved. -/
def addUser (acc : List String) (u : String) : List String :=
  if u ∈ acc then acc else acc ++ [u]

/-- The inner loop of the leaderboard handler: add every key of one call's
attendance object, in iteration order. -/
def addUsers (acc : List String) : List (String × String) → List String
  | [] => acc
  | p :: rest => addUsers (addUser acc p.1) rest

/-- The outer loop of the leaderboard handler, over the period's calls. -/
def collectUsersFrom (acc : List String) : List Call → List String
  | [] => acc
  | c :: rest => collectUsersFrom (addUsers acc c.attendance) rest

/-- All distinct user ids appearing in some call's attendance object, in
discovery (first-appearance) order — the iteration order of the JS `Set`. -/
def collectUsers (calls : List Call) : List String :=
  collectUsersFrom [] calls

/-- One leaderboard row `{ uid, pct, earned, possible }`. -/
structure Row where
  uid : String
  pct : ℚ
  earned : ℚ
  possible : ℚ
deriving DecidableEq

/-- The row the leaderboard handler pushes for one user. -/
def mkRow (calls : List Call) (u : String) : Row :=
  let s := calcStats u calls
  ⟨u, s.pct, s.earned, s.possible⟩

/-- The `rows` array before sorting, in user-discovery order. -/
def baseRows (calls : List Call) : List Row :=
  (collectUsers calls).map (mkRow calls)

/-- Stable descending insertion by `pct`: a new row goes in front of the
first row whose `pct` it reaches, hence after every strictly higher row and
before every equal one that was discovered later in the recursion. -/
def insertRow (r : Row) : List Row → List Row
  | [] => [r]
  | x :: xs => if x.pct ≤ r.pct then r :: x :: xs else x :: insertRow r xs

/-- Stable sort of the rows by `pct` descending. ECMAScript
`Array.prototype.sort` is stable and `rows.sort((a, b) => b.pct - a.pct)`
orders by `pct` descending, which determines its output uniquely; this
insertion sort produces that output (descending order and stability are
proved below). -/
def sortRows : List Row → List Row
  | [] => []
  | r :: rs => insertRow r (sortRows rs)

/-- The ranked leaderboard sequence (before the presentation-side
`slice(0, 25)` truncation). -/
def leaderboardRows (calls : List Call) : List Row :=
  sortRows (baseRows calls)

/-- A call with the given id, points, policy flag and attendance, and blank
descriptive metadata; used for concrete test states. -/
def mkCall (i : Nat) (pts : ℚ) (ca : Bool)
    (att : List (String × String)) : Call :=
  { id := i, cad := i, typeShort := "", type := "", location := "",
    details := "", points := pts, countsAgainst := ca, createdAt := "",
    ridgeDate := "", countTowards := "", monthSort := "", quarter := "",
    attendance := att }

/-- Scenario E of the spec: five one-point penalizing calls; user A makes
four of five (80%), B two of five (40%), C four of five (80%); discovery
order is A, B, C. -/
def scenarioE : List Call :=
  [ mkCall 1 1 true [("A", "MADE"), ("B", "MADE"), ("C", "MADE")],
    mkCall 2 1 true [("A", "MADE"), ("B", "MISSED"), ("C", "MADE")],
    mkCall 3 1 true [("A", "MADE"), ("B", "MISSED"), ("C", "MADE")],
    mkCall 4 1 true [("A", "MADE"), ("B", "MISSED"), ("C", "MADE")],
    mkCall 5 1 true [("A", "MISSED"), ("B", "MADE"), ("C", "MISSED")] ]

/-! ### Helper lemmas about the association-list operations -/

lemma lookupK_upsert (u st : String) (l : List (String × String)) :
    lookupK u (upsert u st l) = some st := by
  induction l with
  | nil => simp [upsert, lookupK]
  | cons p rest ih =>
    by_cases h : p.1 = u
    · simp [upsert, h, lookupK]
    · simp [upsert, h, lookupK, ih]

lemma upsert_upsert (u st : String) (l : List (String × String)) :
    upsert u st (upsert u st l) = upsert u st l := by
  induction l with
  | nil => simp [upsert]
  | cons p rest ih =>
    by_cases h : p.1 = u
    · simp [upsert, h]
    · simp [upsert, h, ih]

lemma lookupK_none_iff (u : String) (l : List (String × String)) :
    lookupK u l = none ↔ ∀ p ∈ l, p.1 ≠ u := by
  induction l with
  | nil => simp [lookupK]
  | cons p rest ih =>
    by_cases h : p.1 = u
    · simp [lookupK, h]
    · simp [lookupK, h, ih]

/-! ### C1 — penalizing events always count toward `possible`; absent = MISSED -/

/-- C1: for an event with `pointValue > 0` and `countsAgainst = true`, the
scoring step always adds the event's `pointValue` to `possible`, whatever the
response; and a user with no recorded response receives exactly the same
`earned`/`possible`/`counts` contribution as one whose recorded response is
`MISSED`. -/
theorem penalizing_event_absent_eq_missed (u : String) (s : Stats) (c : Call)
    (hp : 0 < c.points) (hca : c.countsAgainst = true) :
    (scoreStep u s c).possible = s.possible + c.points ∧
    (lookupK u c.attendance = none →
      scoreStep u s c =
        scoreStep u s { c with attendance := upsert u "MISSED" c.attendance }) := by
  have hp0 : ¬c.points = 0 := ne_of_gt hp
  constructor
  · simp only [scoreStep, hca, hp0, if_false, if_true]
    split_ifs <;> rfl
  · intro habs
    have hmiss : lookupK u (upsert u "MISSED" c.attendance) = some "MISSED" :=
      lookupK_upsert u "MISSED" c.attendance
    simp [scoreStep, hca, hp0, habs, hmiss]

theorem penalizing_event_absent_eq_missed_witness :
    0 < (mkCall 1 1 true []).points ∧ (mkCall 1 1 true []).countsAgainst = true ∧
    ((scoreStep "u" ⟨0, 0, 0, 0, 0, 0⟩ (mkCall 1 1 true [])).possible =
        (0 : ℚ) + (mkCall 1 1 true []).points ∧
      (lookupK "u" (mkCall 1 1 true []).attendance = none →
        scoreStep "u" ⟨0, 0, 0, 0, 0, 0⟩ (mkCall 1 1 true []) =
          scoreStep "u" ⟨0, 0, 0, 0, 0, 0⟩
            { mkCall 1 1 true [] with
              attendance := upsert "u" "MISSED" (mkCall 1 1 true []).attendance })) :=
  ⟨by norm_num [mkCall], by norm_num [mkCall],
    penalizing_event_absent_eq_missed "u" ⟨0, 0, 0, 0, 0, 0⟩ (mkCall 1 1 true [])
      (by norm_num [mkCall]) (by norm_num [mkCall])⟩

/-! ### C2 — non-penalizing events count only when the user responded -/

/-- C2: for an event with `pointValue > 0` and `countsAgainst = false`, the
scoring step adds the event's `pointValue` to `possible` exactly when the
recorded response is `MADE` or `SILENT`; a `MISSED` or absent response leaves
both `possible` and `earned` unchanged. -/
theorem non_penalizing_event_needs_response (u : String) (s : Stats) (c : Call)
    (hp : 0 < c.points) (hca : c.countsAgainst = false) :
    ((lookupK u c.attendance = some "MADE" ∨
        lookupK u c.attendance = some "SILENT") →
      (scoreStep u s c).possible = s.possible + c.points) ∧
    (¬(lookupK u c.attendance = some "MADE" ∨
        lookupK u c.attendance = some "SILENT") →
      (scoreStep u s c).possible = s.possible ∧
      (scoreStep u s c).earned = s.earned) ∧
    ((lookupK u c.attendance = some "MISSED" ∨ lookupK u c.attendance = none) →
      (scoreStep u s c).possible = s.possible ∧
      (scoreStep u s c).earned = s.earned) := by
  have hp0 : ¬c.points = 0 := ne_of_gt hp
  refine ⟨fun h => ?_, fun h => ?_, fun h => ?_⟩
  · rcases h with h | h <;> simp [scoreStep, hca, hp0, h]
  · push_neg at h
    simp [scoreStep, hca, hp0, h.1, h.2]
  · rcases h with h | h <;> simp [scoreStep, hca, hp0, h]

theorem non_penalizing_event_needs_response_witness :
    0 < (mkCall 1 1 false [("u", "MADE")]).points ∧
    (mkCall 1 1 false [("u", "MADE")]).countsAgainst = false ∧
    (((lookupK "u" (mkCall 1 1 false [("u", "MADE")]).attendance = some "MADE" ∨
        lookupK "u" (mkCall 1 1 false [("u", "MADE")]).attendance = some "SILENT") →
      (scoreStep "u" ⟨0, 0, 0, 0, 0, 0⟩ (mkCall 1 1 false [("u", "MADE")])).possible =
        (0 : ℚ) + (mkCall 1 1 false [("u", "MADE")]).points) ∧
    (¬(lookupK "u" (mkCall 1 1 false [("u", "MADE")]).attendance = some "MADE" ∨
        lookupK "u" (mkCall 1 1 false [("u", "MADE")]).attendance = some "SILENT") →
      (scoreStep "u" ⟨0, 0, 0, 0, 0, 0⟩ (mkCall 1 1 false [("u", "MADE")])).possible = (0 : ℚ) ∧
      (scoreStep "u" ⟨0, 0, 0, 0, 0, 0⟩ (mkCall 1 1 false [("u", "MADE")])).earned = (0 : ℚ)) ∧
    ((lookupK "u" (mkCall 1 1 false [("u", "MADE")]).attendance = some "MISSED" ∨
        lookupK "u" (mkCall 1 1 false [("u", "MADE")]).attendance = none) →
      (scoreStep "u" ⟨0, 0, 0, 0, 0, 0⟩ (mkCall 1 1 false [("u", "MADE")])).possible = (0 : ℚ) ∧
      (scoreStep "u" ⟨0, 0, 0, 0, 0, 0⟩ (mkCall 1 1 false [("u", "MADE")])).earned = (0 : ℚ))) :=
  ⟨by norm_num [mkCall], by norm_num [mkCall],
    non_penalizing_event_needs_response "u" ⟨0, 0, 0, 0, 0, 0⟩
      (mkCall 1 1 false [("u", "MADE")]) (by norm_num [mkCall])
      (by norm_num [mkCall])⟩

/-! ### C3 — silent credit is `min(0.5, pointValue)` under either policy -/

/-- C3: for an event with `pointValue > 0` and a recorded `SILENT` response,
the scoring step adds exactly `min(0.5, pointValue)` to `earned` under either
`countsAgainst` policy; that credit never exceeds `0.5` nor the event's own
`pointValue`, and equals `0.5` both for one-point and for half-point events. -/
theorem silent_credit_capped (u : String) (s : Stats) (c : Call)
    (hp : 0 < c.points) (hsil : lookupK u c.attendance = some "SILENT") :
    (scoreStep u s c).earned = s.earned + min (1/2 : ℚ) c.points ∧
    min (1/2 : ℚ) c.points ≤ 1/2 ∧
    min (1/2 : ℚ) c.points ≤ c.points ∧
    (c.points = 1 → (scoreStep u s c).earned = s.earned + 1/2) ∧
    (c.points = 1/2 → (scoreStep u s c).earned = s.earned + 1/2) := by
  have hp0 : ¬c.points = 0 := ne_of_gt hp
  have hstep : (scoreStep u s c).earned = s.earned + min (1/2 : ℚ) c.points := by
    cases hca : c.countsAgainst <;> simp [scoreStep, hca, hp0, hsil]
  refine ⟨hstep, min_le_left _ _, min_le_right _ _, fun h1 => ?_, fun h2 => ?_⟩
  · rw [hstep, h1]; norm_num
  · rw [hstep, h2]; norm_num

theorem silent_credit_capped_witness :
    0 < (mkCall 1 1 true [("u", "SILENT")]).points ∧
    lookupK "u" (mkCall 1 1 true [("u", "SILENT")]).attendance = some "SILENT" ∧
    ((scoreStep "u" ⟨0, 0, 0, 0, 0, 0⟩ (mkCall 1 1 true [("u", "SILENT")])).earned =
        (0 : ℚ) + min (1/2 : ℚ) (mkCall 1 1 true [("u", "SILENT")]).points ∧
      min (1/2 : ℚ) (mkCall 1 1 true [("u", "SILENT")]).points ≤ 1/2 ∧
      min (1/2 : ℚ) (mkCall 1 1 true [("u", "SILENT")]).points ≤
        (mkCall 1 1 true [("u", "SILENT")]).points ∧
      ((mkCall 1 1 true [("u", "SILENT")]).points = 1 →
        (scoreStep "u" ⟨0, 0, 0, 0, 0, 0⟩ (mkCall 1 1 true [("u", "SILENT")])).earned =
          (0 : ℚ) + 1/2) ∧
      ((mkCall 1 1 true [("u", "SILENT")]).points = 1/2 →
        (scoreStep "u" ⟨0, 0, 0, 0, 0, 0⟩ (mkCall 1 1 true [("u", "SILENT")])).earned =
          (0 : ℚ) + 1/2)) :=
  ⟨by norm_num [mkCall], by norm_num [mkCall, lookupK],
    silent_credit_capped "u" ⟨0, 0, 0, 0, 0, 0⟩ (mkCall 1 1 true [("u", "SILENT")])
      (by norm_num [mkCall]) (by norm_num [mkCall, lookupK])⟩

/-! ### C4 — percentage formula and bounds -/

lemma scoreStep_earned_bounds (u : String) (s : Stats) (c : Call)
    (hc : 0 ≤ c.points) (h0 : 0 ≤ s.earned) (h1 : s.earned ≤ s.possible) :
    0 ≤ (scoreStep u s c).earned ∧
    (scoreStep u s c).earned ≤ (scoreStep u s c).possible := by
  have hmin1 : min (1/2 : ℚ) c.points ≤ c.points := min_le_right _ _
  have hmin0 : 0 ≤ min (1/2 : ℚ) c.points := le_min (by norm_num) hc
  simp only [scoreStep]
  split_ifs <;> constructor <;> first | linarith | (simp; linarith)

lemma foldl_scoreStep_bounds (u : String) (calls : List Call)
    (hpts : ∀ c ∈ calls, 0 ≤ c.points) :
    ∀ s : Stats, 0 ≤ s.earned → s.earned ≤ s.possible →
      0 ≤ (calls.foldl (scoreStep u) s).earned ∧
      (calls.foldl (scoreStep u) s).earned ≤
        (calls.foldl (scoreStep u) s).possible := by
  induction calls with
  | nil => intro s h0 h1; simpa using ⟨h0, h1⟩
  | cons c rest ih =>
    intro s h0 h1
    have hc : 0 ≤ c.points := hpts c (by simp)
    have hrest : ∀ c' ∈ rest, 0 ≤ c'.points := fun c' hc' => hpts c' (by simp [hc'])
    have hstep := scoreStep_earned_bounds u s c hc h0 h1
    simpa [List.foldl] using ih hrest (scoreStep u s c) hstep.1 hstep.2

/-- C4: when every event's point value lies in the set from the observed
configurations, `calcStats` reports `percentage = earned / possible * 100`
for `possible > 0` and `percentage = 0` for `possible = 0`; moreover
`0 ≤ earned ≤ possible`, so the percentage always lies within `[0, 100]`,
and a zero denominator yields the valid score `0`, not an error value. -/
theorem calcStats_percentage_bounds (u : String) (calls : List Call)
    (hpts : ∀ c ∈ calls, c.points = 0 ∨ c.points = 1/2 ∨ c.points = 1) :
    (calcStats u calls).pct =
      (if (calcStats u calls).possible > 0 then
        (calcStats u calls).earned / (calcStats u calls).possible * 100
      else 0) ∧
    0 ≤ (calcStats u calls).earned ∧
    (calcStats u calls).earned ≤ (calcStats u calls).possible ∧
    0 ≤ (calcStats u calls).pct ∧ (calcStats u calls).pct ≤ 100 ∧
    ((calcStats u calls).possible = 0 → (calcStats u calls).pct = 0) := by
  have hnn : ∀ c ∈ calls, 0 ≤ c.points := by
    intro c hc
    rcases hpts c hc with h | h | h <;> rw [h] <;> norm_num
  have hb := foldl_scoreStep_bounds u calls hnn ⟨0, 0, 0, 0, 0, 0⟩
    (by norm_num) (by norm_num)
  have h0 : 0 ≤ (calcStats u calls).earned := by
    simpa [calcStats] using hb.1
  have h1 : (calcStats u calls).earned ≤ (calcStats u calls).possible := by
    simpa [calcStats] using hb.2
  have hdef : (calcStats u calls).pct =
      (if (calcStats u calls).possible > 0 then
        (calcStats u calls).earned / (calcStats u calls).possible * 100
      else 0) := rfl
  refine ⟨hdef, h0, h1, ?_, ?_, ?_⟩
  · rw [hdef]
    split_ifs with hpos
    · have := div_nonneg h0 (le_of_lt hpos)
      linarith
    · linarith
  · rw [hdef]
    split_ifs with hpos
    · have hle : (calcStats u calls).earned / (calcStats u calls).possible ≤ 1 :=
        (div_le_one hpos).mpr h1
      linarith
    · norm_num
  · intro hz
    rw [hdef, hz]
    norm_num

theorem calcStats_percentage_bounds_witness :
    (∀ c ∈ scenarioE, c.points = 0 ∨ c.points = 1/2 ∨ c.points = 1) ∧
    ((calcStats "A" scenarioE).pct =
      (if (calcStats "A" scenarioE).possible > 0 then
        (calcStats "A" scenarioE).earned / (calcStats "A" scenarioE).possible * 100
      else 0) ∧
    0 ≤ (calcStats "A" scenarioE).earned ∧
    (calcStats "A" scenarioE).earned ≤ (calcStats "A" scenarioE).possible ∧
    0 ≤ (calcStats "A" scenarioE).pct ∧ (calcStats "A" scenarioE).pct ≤ 100 ∧
    ((calcStats "A" scenarioE).possible = 0 → (calcStats "A" scenarioE).pct = 0)) :=
  ⟨by norm_num [scenarioE, mkCall],
    calcStats_percentage_bounds "A" scenarioE (by norm_num [scenarioE, mkCall])⟩

/-! ### C5 — recording the same response twice is a no-op in effect -/

lemma updateFirst_idem (p : Call → Bool) (f : Call → Call)
    (hpf : ∀ c, p c = true → p (f c) = true)
    (hff : ∀ c, p c = true → f (f c) = f c) :
    ∀ l : List Call, updateFirst p f (updateFirst p f l) = updateFirst p f l := by
  intro l
  induction l with
  | nil => simp [updateFirst]
  | cons c rest ih =>
    by_cases h : p c = true
    · simp [updateFirst, h, hpf c h, hff c h]
    · simp only [updateFirst, h, if_neg]
      rw [if_neg (by simp [h]), if_neg (by simp [h]), ih]

/-- C5: recording the same response state twice in a row for the same event
and user leaves the store exactly as a single recording does (last write
wins), so every score computed from the store afterwards is identical. -/
theorem recordResponse_idempotent (d : Store) (eventId : Nat) (u st : String) :
    recordResponse (recordResponse d eventId u st) eventId u st =
      recordResponse d eventId u st ∧
    ∀ v : String,
      calcStats v (recordResponse (recordResponse d eventId u st) eventId u st).calls =
        calcStats v (recordResponse d eventId u st).calls := by
  have hstore :
      recordResponse (recordResponse d eventId u st) eventId u st =
        recordResponse d eventId u st := by
    show ({ recordResponse d eventId u st with
        calls := updateFirst (fun c => c.id == eventId)
          (fun c => { c with attendance := upsert u st c.attendance })
          (recordResponse d eventId u st).calls } : Store) = _
    have h := updateFirst_idem (fun c => c.id == eventId)
      (fun c => { c with attendance := upsert u st c.attendance })
      (fun c hc => hc) (fun c _ => by simp [upsert_upsert]) d.calls
    simp only [recordResponse]
    rw [h]
  exact ⟨hstore, fun v => by rw [hstore]⟩

/-! ### C6 — leaderboard membership, ranking and stable tie-break -/

lemma mem_addUser (v : String) (acc : List String) (u : String) :
    v ∈ addUser acc u ↔ v ∈ acc ∨ v = u := by
  by_cases h : u ∈ acc
  · rw [addUser, if_pos h]
    constructor
    · exact fun hv => Or.inl hv
    · rintro (hv | rfl)
      · exact hv
      · exact h
  · rw [addUser, if_neg h]
    simp

lemma nodup_addUser (acc : List String) (u : String) (h : acc.Nodup) :
    (addUser acc u).Nodup := by
  by_cases hm : u ∈ acc
  · simpa [addUser, hm] using h
  · rw [addUser, if_neg hm]
    simp [List.nodup_append, h, hm]

lemma mem_addUsers (v : String) (l : List (String × String)) :
    ∀ acc : List String,
      v ∈ addUsers acc l ↔ v ∈ acc ∨ ∃ p, p ∈ l ∧ p.1 = v := by
  induction l with
  | nil => intro acc; simp [addUsers]
  | cons p rest ih =>
    intro acc
    rw [addUsers, ih, mem_addUser]
    constructor
    · rintro ((hv | hv) | ⟨q, hq, hqv⟩)
      · exact Or.inl hv
      · exact Or.inr ⟨p, List.mem_cons_self p rest, hv.symm⟩
      · exact Or.inr ⟨q, List.mem_cons_of_mem p hq, hqv⟩
    · rintro (hv | ⟨q, hq, hqv⟩)
      · exact Or.inl (Or.inl hv)
      · rcases List.mem_cons.mp hq with hq | hq
        · subst hq
          exact Or.inl (Or.inr hqv.symm)
        · exact Or.inr ⟨q, hq, hqv⟩

lemma nodup_addUsers (l : List (String × String)) :
    ∀ acc : List String, acc.Nodup → (addUsers acc l).Nodup := by
  induction l with
  | nil => intro acc h; simpa [addUsers] using h
  | cons p rest ih =>
    intro acc h
    exact ih (addUser acc p.1) (nodup_addUser acc p.1 h)

lemma mem_collectUsersFrom (v : String) (calls : List Call) :
    ∀ acc : List String,
      v ∈ collectUsersFrom acc calls ↔
        v ∈ acc ∨ ∃ c, c ∈ calls ∧ ∃ p, p ∈ c.attendance ∧ p.1 = v := by
  induction calls with
  | nil => intro acc; simp [collectUsersFrom]
  | cons c rest ih =>
    intro acc
    rw [collectUsersFrom, ih, mem_addUsers]
    constructor
    · rintro ((hv | ⟨p, hp, hpv⟩) | ⟨c', hc', hp⟩)
      · exact Or.inl hv
      · exact Or.inr ⟨c, List.mem_cons_self c rest, p, hp, hpv⟩
      · exact Or.inr ⟨c', List.mem_cons_of_mem c hc', hp⟩
    · rintro (hv | ⟨c', hc', p, hp, hpv⟩)
      · exact Or.inl (Or.inl hv)
      · rcases List.mem_cons.mp hc' with hc' | hc'
        · subst hc'
          exact Or.inl (Or.inr ⟨p, hp, hpv⟩)
        · exact Or.inr ⟨c', hc', p, hp, hpv⟩

lemma nodup_collectUsersFrom (calls : List Call) :
    ∀ acc : List String, acc.Nodup → (collectUsersFrom acc calls).Nodup := by
  induction calls with
  | nil => intro acc h; simpa [collectUsersFrom] using h
  | cons c rest ih =>
    intro acc h
    exact ih (addUsers acc c.attendance) (nodup_addUsers c.attendance acc h)

lemma mem_collectUsers (v : String) (calls : List Call) :
    v ∈ collectUsers calls ↔
      ∃ c, c ∈ calls ∧ ∃ p, p ∈ c.attendance ∧ p.1 = v := by
  rw [collectUsers, mem_collectUsersFrom]
  simp

lemma nodup_collectUsers (calls : List Call) : (collectUsers calls).Nodup :=
  nodup_collectUsersFrom calls [] (by simp)

lemma insertRow_perm (r : Row) (l : List Row) :
    List.Perm (insertRow r l) (r :: l) := by
  induction l with
  | nil => simp [insertRow]
  | cons x xs ih =>
    by_cases h : x.pct ≤ r.pct
    · rw [insertRow, if_pos h]
    · rw [insertRow, if_neg h]
      exact (ih.cons x).trans (List.Perm.swap r x xs)

lemma sortRows_perm (l : List Row) : List.Perm (sortRows l) l := by
  induction l with
  | nil => simp [sortRows]
  | cons r rs ih =>
    exact (insertRow_perm r (sortRows rs)).trans (ih.cons r)

lemma insertRow_pairwise (r : Row) (l : List Row)
    (h : l.Pairwise (fun a b => b.pct ≤ a.pct)) :
    (insertRow r l).Pairwise (fun a b => b.pct ≤ a.pct) := by
  induction l with
  | nil => simp [insertRow]
  | cons x xs ih =>
    rcases List.pairwise_cons.mp h with ⟨hx, hxs⟩
    by_cases hle : x.pct ≤ r.pct
    · rw [insertRow, if_pos hle]
      refine List.pairwise_cons.mpr ⟨?_, h⟩
      intro b hb
      rcases List.mem_cons.mp hb with hb | hb
      · subst hb
        exact hle
      · exact le_trans (hx b hb) hle
    · rw [insertRow, if_neg hle]
      refine List.pairwise_cons.mpr ⟨?_, ih hxs⟩
      intro b hb
      rcases List.mem_cons.mp ((insertRow_perm r xs).mem_iff.mp hb) with hb | hb
      · subst hb
        exact le_of_not_le hle
      · exact hx b hb

lemma sortRows_pairwise (l : List Row) :
    (sortRows l).Pairwise (fun a b => b.pct ≤ a.pct) := by
  induction l with
  | nil => simp [sortRows]
  | cons r rs ih => exact insertRow_pairwise r (sortRows rs) ih

lemma filter_insertRow (q : ℚ) (r : Row) (l : List Row) :
    (insertRow r l).filter (fun x => decide (x.pct = q)) =
      if r.pct = q then r :: l.filter (fun x => decide (x.pct = q))
      else l.filter (fun x => decide (x.pct = q)) := by
  induction l with
  | nil =>
    by_cases h : r.pct = q <;> simp [insertRow, h]
  | cons x xs ih =>
    by_cases hle : x.pct ≤ r.pct
    · rw [insertRow, if_pos hle]
      by_cases h : r.pct = q <;> simp [h]
    · rw [insertRow, if_neg hle]
      by_cases h : r.pct = q
      · have hx : ¬x.pct = q := fun hx => hle (le_of_eq (hx.trans h.symm))
        simp [List.filter_cons, hx, h, ih]
      · by_cases hx : x.pct = q <;> simp [List.filter_cons, hx, h, ih]

lemma filter_sortRows (q : ℚ) (l : List Row) :
    (sortRows l).filter (fun x => decide (x.pct = q)) =
      l.filter (fun x => decide (x.pct = q)) := by
  induction l with
  | nil => simp [sortRows]
  | cons r rs ih =>
    rw [sortRows, filter_insertRow]
    by_cases h : r.pct = q <;> simp [List.filter_cons, h, ih]

lemma foldE_A : List.foldl (scoreStep "A") ⟨0, 0, 0, 0, 0, 0⟩ scenarioE =
    ⟨5, 4, 0, 4, 0, 1⟩ := by
  simp only [scenarioE, mkCall, List.foldl]
  norm_num [scoreStep, lookupK]
  simp

lemma foldE_B : List.foldl (scoreStep "B") ⟨0, 0, 0, 0, 0, 0⟩ scenarioE =
    ⟨5, 2, 0, 2, 0, 3⟩ := by
  simp only [scenarioE, mkCall, List.foldl]
  norm_num [scoreStep, lookupK]
  simp
  norm_num

lemma foldE_C : List.foldl (scoreStep "C") ⟨0, 0, 0, 0, 0, 0⟩ scenarioE =
    ⟨5, 4, 0, 4, 0, 1⟩ := by
  simp only [scenarioE, mkCall, List.foldl]
  norm_num [scoreStep, lookupK]
  simp
  norm_num

lemma calcStatsE_A : calcStats "A" scenarioE = ⟨5, 4, 80, 4, 0, 1⟩ := by
  simp only [calcStats, foldE_A]
  norm_num

lemma calcStatsE_B : calcStats "B" scenarioE = ⟨5, 2, 40, 2, 0, 3⟩ := by
  simp only [calcStats, foldE_B]
  norm_num

lemma calcStatsE_C : calcStats "C" scenarioE = ⟨5, 4, 80, 4, 0, 1⟩ := by
  simp only [calcStats, foldE_C]
  norm_num

lemma collectUsersE : collectUsers scenarioE = ["A", "B", "C"] := by decide

lemma baseRowsE : baseRows scenarioE =
    [⟨"A", 80, 4, 5⟩, ⟨"B", 40, 2, 5⟩, ⟨"C", 80, 4, 5⟩] := by
  rw [baseRows, collectUsersE]
  simp [mkRow, calcStatsE_A, calcStatsE_B, calcStatsE_C]

lemma leaderboardE : (leaderboardRows scenarioE).map Row.uid = ["A", "C", "B"] := by
  rw [leaderboardRows, baseRowsE]
  norm_num [sortRows, insertRow]

/-- C6: the leaderboard rows list exactly the distinct user ids that appear in
some call's attendance map (a user with zero recorded responses never
appears), each carrying that user's `calcStats` score over the set, ordered
by percentage descending; ties keep discovery order (the `pct`-fibers of the
sorted rows equal those of the discovery-ordered rows), and in particular for
three users scoring 80, 40, 80 the two 80% users precede the 40% user in
their original discovery order. -/
theorem leaderboard_ranking :
    (∀ calls : List Call,
      (∀ u : String,
        (∃ r, r ∈ leaderboardRows calls ∧ r.uid = u) ↔
          ∃ c, c ∈ calls ∧ ∃ p, p ∈ c.attendance ∧ p.1 = u) ∧
      ((leaderboardRows calls).map Row.uid).Nodup ∧
      (∀ r, r ∈ leaderboardRows calls →
        r.pct = (calcStats r.uid calls).pct ∧
        r.earned = (calcStats r.uid calls).earned ∧
        r.possible = (calcStats r.uid calls).possible) ∧
      (leaderboardRows calls).Pairwise (fun a b => b.pct ≤ a.pct) ∧
      (∀ q : ℚ,
        (leaderboardRows calls).filter (fun r => decide (r.pct = q)) =
          (baseRows calls).filter (fun r => decide (r.pct = q)))) ∧
    (leaderboardRows scenarioE).map Row.uid = ["A", "C", "B"] := by
  refine ⟨fun calls => ?_, leaderboardE⟩
  have hperm : List.Perm (leaderboardRows calls) (baseRows calls) :=
    sortRows_perm (baseRows calls)
  have hmem : ∀ r : Row, r ∈ leaderboardRows calls ↔ r ∈ baseRows calls :=
    fun r => hperm.mem_iff
  have hbase : ∀ r : Row, r ∈ baseRows calls →
      ∃ v, v ∈ collectUsers calls ∧ r = mkRow calls v := by
    intro r hr
    rcases List.mem_map.mp hr with ⟨v, hv, hrv⟩
    exact ⟨v, hv, hrv.symm⟩
  refine ⟨?_, ?_, ?_, sortRows_pairwise (baseRows calls),
    fun q => filter_sortRows q (baseRows calls)⟩
  · intro u
    constructor
    · rintro ⟨r, hr, rfl⟩
      rcases hbase r ((hmem r).mp hr) with ⟨v, hv, rfl⟩
      exact (mem_collectUsers v calls).mp hv
    · intro h
      have hu : u ∈ collectUsers calls := (mem_collectUsers u calls).mpr h
      exact ⟨mkRow calls u, (hmem _).mpr (List.mem_map_of_mem (mkRow calls) hu),
        rfl⟩
  · have hmapped : (baseRows calls).map Row.uid = collectUsers calls := by
      rw [baseRows, List.map_map]
      have hcomp : (Row.uid ∘ mkRow calls) = id := by
        funext v
        rfl
      rw [hcomp, List.map_id]
    have hpermmap : List.Perm ((leaderboardRows calls).map Row.uid)
        ((baseRows calls).map Row.uid) := hperm.map Row.uid
    rw [List.Perm.nodup_iff hpermmap, hmapped]
    exact nodup_collectUsers calls
  · intro r hr
    rcases hbase r ((hmem r).mp hr) with ⟨v, _, rfl⟩
    exact ⟨rfl, rfl, rfl⟩

/-! ### C7 — per-user reset removes exactly that user's entries -/

/-- C7: provided no stored status for `u` is the empty string (the statuses
the system ever stores are `MADE`/`SILENT`/`MISSED`, all JS-truthy),
`resetUserResponses u` removes exactly `u`'s entry from every call's
attendance map: the store equals the original with each attendance map
filtered of `u`'s entry, so `nextId`, every other field of every call, and
every other user's entries are untouched. -/
theorem resetUserResponses_frame (d : Store) (u : String)
    (h : ∀ c ∈ d.calls, lookupK u c.attendance ≠ some "") :
    resetUserResponses d u =
      { d with calls := d.calls.map (fun c =>
          { c with attendance := c.attendance.filter (fun p => p.1 != u) }) } := by
  have hcalls : ∀ c ∈ d.calls,
      (match lookupK u c.attendance with
        | some s => if s = "" then c
            else { c with attendance := eraseK u c.attendance }
        | none => c) =
      { c with attendance := c.attendance.filter (fun p => p.1 != u) } := by
    intro c hc
    cases hlk : lookupK u c.attendance with
    | none =>
      have hall : ∀ p ∈ c.attendance, p.1 ≠ u :=
        (lookupK_none_iff u c.attendance).mp hlk
      have hfix : c.attendance.filter (fun p => p.1 != u) = c.attendance :=
        List.filter_eq_self.mpr
          (fun p hp => by simpa [bne_iff_ne] using hall p hp)
      rw [hfix]
    | some s =>
      have hs : ¬s = "" := by
        intro hs0
        exact h c hc (by rw [hlk, hs0])
      simp [hs, eraseK]
  simp only [resetUserResponses]
  congr 1
  exact List.map_congr_left hcalls

theorem resetUserResponses_frame_witness :
    (∀ c ∈ (⟨2, [mkCall 1 1 true [("A", "MADE"), ("B", "SILENT")]]⟩ : Store).calls,
      lookupK "A" c.attendance ≠ some "") ∧
    resetUserResponses (⟨2, [mkCall 1 1 true [("A", "MADE"), ("B", "SILENT")]]⟩ : Store) "A" =
      { (⟨2, [mkCall 1 1 true [("A", "MADE"), ("B", "SILENT")]]⟩ : Store) with
        calls := (⟨2, [mkCall 1 1 true [("A", "MADE"), ("B", "SILENT")]]⟩ : Store).calls.map
          (fun c => { c with attendance := c.attendance.filter (fun p => p.1 != "A") }) } :=
  ⟨by decide,
    resetUserResponses_frame
      (⟨2, [mkCall 1 1 true [("A", "MADE"), ("B", "SILENT")]]⟩ : Store) "A" (by decide)⟩

/-! ### C8 — monotonic, never-reused event ids -/

lemma mem_updateFirst (p : Call → Bool) (f : Call → Call) (l : List Call)
    (c' : Call) (h : c' ∈ updateFirst p f l) :
    c' ∈ l ∨ ∃ c ∈ l, c' = f c := by
  induction l with
  | nil => simp [updateFirst] at h
  | cons c rest ih =>
    by_cases hp : p c
    · rw [updateFirst, if_pos hp] at h
      rcases List.mem_cons.mp h with h | h
      · exact Or.inr ⟨c, List.mem_cons_self c rest, h⟩
      · exact Or.inl (List.mem_cons_of_mem c h)
    · rw [updateFirst, if_neg hp] at h
      rcases List.mem_cons.mp h with h | h
      · exact Or.inl (by rw [h]; exact List.mem_cons_self c rest)
      · rcases ih h with h | ⟨c0, hc0, hc0'⟩
        · exact Or.inl (List.mem_cons_of_mem c h)
        · exact Or.inr ⟨c0, List.mem_cons_of_mem c hc0, hc0'⟩

/-- C8: starting from any store satisfying the id invariant (`nextId` exceeds
every stored id), a `/call` creation returns an id strictly greater than
every previously assigned id and re-establishes the invariant, so ids stay
unique and are never reused; the invariant holds of the fresh store, survives
a persistence round trip (a restart reloads exactly the saved document), and
is preserved by the response and reset mutations. -/
theorem createEvent_monotonic_ids (fmt : DateFmt) (d : Store)
    (location : String) (dateParsed : Option Int) (typ : String) (points : ℚ)
    (caOpt : Option Bool) (detOpt : Option String) (now : Int)
    (nowIso : String) (hinv : idInv d) :
    (∀ c ∈ d.calls,
      c.id < (callCommand fmt d location dateParsed typ points caOpt detOpt
        now nowIso).2.id) ∧
    idInv (callCommand fmt d location dateParsed typ points caOpt detOpt
      now nowIso).1 ∧
    ((d.calls.map Call.id).Nodup →
      (((callCommand fmt d location dateParsed typ points caOpt detOpt
        now nowIso).1.calls).map Call.id).Nodup) ∧
    idInv initialData ∧
    (∀ d' : Store, loadData (some d') = d') ∧
    (∀ (d' : Store) (e : Nat) (u st : String),
      idInv d' → idInv (recordResponse d' e u st)) ∧
    (∀ (d' : Store) (u : String), idInv d' → idInv (resetUserResponses d' u)) := by
  refine ⟨?_, ?_, ?_, ?_, fun d' => rfl, ?_, ?_⟩
  · intro c hc
    exact hinv c hc
  · intro c hc
    rcases List.mem_append.mp hc with hc | hc
    · exact Nat.lt_succ_of_lt (hinv c hc)
    · rcases List.mem_singleton.mp hc with rfl
      exact Nat.lt_succ_self _
  · intro hnd
    simp only [callCommand, List.map_append, List.map_cons, List.map_nil]
    rw [List.nodup_append]
    refine ⟨hnd, List.nodup_singleton _, ?_⟩
    intro a ha hb
    rcases List.mem_map.mp ha with ⟨c, hc, rfl⟩
    rcases List.mem_singleton.mp hb with h
    exact absurd h (Nat.ne_of_lt (hinv c hc))
  · intro c hc
    simp [initialData] at hc
  · intro d' e u st hinv' c hc
    rcases mem_updateFirst _ _ _ c hc with h | ⟨c0, hc0, rfl⟩
    · exact hinv' c h
    · exact hinv' c0 hc0
  · intro d' u hinv' c hc
    rcases List.mem_map.mp hc with ⟨c0, hc0, rfl⟩
    have hid : (match lookupK u c0.attendance with
        | some s => if s = "" then c0
            else { c0 with attendance := eraseK u c0.attendance }
        | none => c0).id = c0.id := by
      cases lookupK u c0.attendance with
      | none => rfl
      | some s =>
        by_cases hs : s = "" <;> simp [hs]
    rw [hid]
    exact hinv' c0 hc0

theorem createEvent_monotonic_ids_witness :
    idInv initialData ∧
    (∀ c ∈ initialData.calls,
      c.id < (callCommand ⟨fun _ => "", fun _ => "", fun _ => "", fun _ => ""⟩
        initialData "L" none "ALARM" 1 none none 0 "").2.id) :=
  ⟨fun c hc => by simp [initialData] at hc,
    (createEvent_monotonic_ids
      ⟨fun _ => "", fun _ => "", fun _ => "", fun _ => ""⟩ initialData "L" none
      "ALARM" 1 none none 0 ""
      (fun c hc => by simp [initialData] at hc)).1⟩

/-! ### C9 — a malformed timestamp is NOT rejected: `parseUserDate` falls
back to the current time and the event is created anyway -/

/-- C9 counterexample: calling `/call` on the empty store with a malformed
date string (a JS `Date` parse that produced `NaN`, embedded as `none`)
mutates the store — a new event is created — contradicting the claim that
invalid timestamps are rejected before any mutation with the store left
unchanged. -/
theorem malformed_date_not_rejected :
    (callCommand ⟨fun _ => "", fun _ => "", fun _ => "", fun _ => ""⟩
        initialData "L" none "ALARM" 1 none none 0 "").1 ≠ initialData ∧
    ((callCommand ⟨fun _ => "", fun _ => "", fun _ => "", fun _ => ""⟩
        initialData "L" none "ALARM" 1 none none 0 "").1.calls).length = 1 := by
  constructor
  · intro h
    have hl := congrArg (fun s => s.calls.length) h
    simp [callCommand, initialData] at hl
  · simp [callCommand, initialData]

/-- C9 (amended): a `/call` whose timestamp input is malformed is not
rejected; `parseUserDate` substitutes the current time `now`, the event's
period keys are derived from `now`, and the event is appended to the store
exactly as for a valid input. Point values outside the permitted set and
missing required fields are prevented upstream by the slash-command option
schema (`addChoices`/`setRequired`), not checked in this handler. -/
theorem malformed_date_falls_back_to_now (fmt : DateFmt) (d : Store)
    (location typ : String) (points : ℚ) (caOpt : Option Bool)
    (detOpt : Option String) (now : Int) (nowIso : String) :
    (callCommand fmt d location none typ points caOpt detOpt now nowIso).1.calls =
      d.calls ++
        [(callCommand fmt d location none typ points caOpt detOpt now nowIso).2] ∧
    parseUserDate none now = now ∧
    (callCommand fmt d location none typ points caOpt detOpt now nowIso).2.monthSort =
      fmt.monthSortKey now ∧
    (callCommand fmt d location none typ points caOpt detOpt now nowIso).2.quarter =
      fmt.quarterKey now :=
  ⟨rfl, rfl, rfl, rfl⟩

/-! ### C10 — unvalidated status strings are stored verbatim and score as
missed -/

lemma mem_lists_mem_keys (x : String) :
    ∀ att : List (String × String),
      (x ∈ (buildAttendanceLists att).1 ∨ x ∈ (buildAttendanceLists att).2.1 ∨
        x ∈ (buildAttendanceLists att).2.2) → x ∈ att.map Prod.fst := by
  intro att
  induction att with
  | nil => simp [buildAttendanceLists]
  | cons p rest ih =>
    rcases p with ⟨v, sv⟩
    by_cases hm : sv = "MADE"
    · simp only [buildAttendanceLists, hm, if_pos rfl]
      rintro (h | h | h)
      · rcases List.mem_cons.mp h with h | h
        · simp [h]
        · exact List.mem_cons_of_mem v (ih (Or.inl h))
      · exact List.mem_cons_of_mem v (ih (Or.inr (Or.inl h)))
      · exact List.mem_cons_of_mem v (ih (Or.inr (Or.inr h)))
    · by_cases hs : sv = "SILENT"
      · simp only [buildAttendanceLists, hm, hs, if_neg, if_pos rfl, if_true,
          String.reduceEq]
        rintro (h | h | h)
        · exact List.mem_cons_of_mem v (ih (Or.inl h))
        · rcases List.mem_cons.mp h with h | h
          · simp [h]
          · exact List.mem_cons_of_mem v (ih (Or.inr (Or.inl h)))
        · exact List.mem_cons_of_mem v (ih (Or.inr (Or.inr h)))
      · by_cases hx : sv = "MISSED"
        · simp only [buildAttendanceLists, hm, hs, hx, if_neg, if_pos rfl,
            if_true, String.reduceEq]
          rintro (h | h | h)
          · exact List.mem_cons_of_mem v (ih (Or.inl h))
          · exact List.mem_cons_of_mem v (ih (Or.inr (Or.inl h)))
          · rcases List.mem_cons.mp h with h | h
            · simp [h]
            · exact List.mem_cons_of_mem v (ih (Or.inr (Or.inr h)))
        · simp only [buildAttendanceLists, if_neg hm, if_neg hs, if_neg hx]
          intro h
          exact List.mem_cons_of_mem v (ih h)

lemma find_updateFirst_id (eventId : Nat) (f : Call → Call)
    (hf : ∀ c, (f c).id = c.id) (l : List Call) :
    (updateFirst (fun c => c.id == eventId) f l).find?
        (fun c => c.id == eventId) =
      (l.find? (fun c => c.id == eventId)).map f := by
  induction l with
  | nil => simp [updateFirst]
  | cons c rest ih =>
    by_cases h : c.id = eventId
    · rw [updateFirst, if_pos (by simp [h])]
      rw [List.find?_cons_of_pos _ (by simp [hf c, h]),
        List.find?_cons_of_pos _ (by simp [h])]
      simp
    · rw [updateFirst, if_neg (by simp [h])]
      rw [List.find?_cons_of_neg _ (by simp [h]),
        List.find?_cons_of_neg _ (by simp [h]), ih]

/-- C10: any status string is accepted without validation. For a status
outside `{MADE, SILENT, MISSED}`: the button handler stores the string
verbatim in the clicked event's attendance map; the scoring step treats that
user exactly as missed (with `countsAgainst` the `pointValue` still enters
`possible`, without it the event is invisible, and nothing is earned either
way while the missed counter increments); and the user appears in none of
the made/silent/missed attendance lists. -/
theorem unknown_status_scored_as_missed (d : Store) (eventId : Nat)
    (u st : String) (s : Stats) (c : Call)
    (h1 : st ≠ "MADE") (h2 : st ≠ "SILENT") (h3 : st ≠ "MISSED") :
    (∀ c', getCall (recordResponse d eventId u st) eventId = some c' →
      lookupK u c'.attendance = some st) ∧
    (0 < c.points → lookupK u c.attendance = some st →
      (scoreStep u s c).earned = s.earned ∧
      (scoreStep u s c).missed = s.missed + 1 ∧
      (scoreStep u s c).made = s.made ∧
      (scoreStep u s c).silent = s.silent ∧
      (scoreStep u s c).possible =
        s.possible + (if c.countsAgainst then c.points else 0)) ∧
    (∀ att : List (String × String), lookupK u att = some st →
      (att.map Prod.fst).Nodup →
      u ∉ (buildAttendanceLists att).1 ∧
      u ∉ (buildAttendanceLists att).2.1 ∧
      u ∉ (buildAttendanceLists att).2.2) := by
  refine ⟨?_, ?_, ?_⟩
  · intro c' hc'
    have hc2 : (updateFirst (fun c0 => c0.id == eventId)
        (fun c0 => { c0 with attendance := upsert u st c0.attendance })
        d.calls).find? (fun c0 => c0.id == eventId) = some c' := hc'
    rw [find_updateFirst_id eventId
      (fun c0 => { c0 with attendance := upsert u st c0.attendance })
      (fun c0 => rfl) d.calls] at hc2
    rcases Option.map_eq_some'.mp hc2 with ⟨c0, _, rfl⟩
    exact lookupK_upsert u st c0.attendance
  · intro hp hlk
    have hp0 : ¬c.points = 0 := ne_of_gt hp
    cases hca : c.countsAgainst <;>
      simp [scoreStep, hp0, hca, hlk, h1, h2]
  · intro att hlk hnd
    induction att with
    | nil => simp [lookupK] at hlk
    | cons p rest ih =>
      rcases p with ⟨v, sv⟩
      have hnd2 : (v :: rest.map Prod.fst).Nodup := hnd
      rcases List.nodup_cons.mp hnd2 with ⟨hvrest, hndrest⟩
      by_cases hv : v = u
      · subst hv
        rw [lookupK, if_pos rfl] at hlk
        have hsv : sv = st := Option.some.injEq _ _ ▸ hlk
        subst hsv
        have hnk : v ∉ rest.map Prod.fst := hvrest
        have hrest := fun hmem => hnk (mem_lists_mem_keys v rest hmem)
        simp only [buildAttendanceLists, if_neg h1, if_neg h2, if_neg h3]
        exact ⟨fun hm => hrest (Or.inl hm), fun hm => hrest (Or.inr (Or.inl hm)),
          fun hm => hrest (Or.inr (Or.inr hm))⟩
      · rw [lookupK, if_neg (fun hvu => hv hvu)] at hlk
        have hres := ih hlk hndrest
        by_cases hm : sv = "MADE"
        · simp only [buildAttendanceLists, hm, if_pos rfl]
          refine ⟨?_, hres.2.1, hres.2.2⟩
          intro hmem
          rcases List.mem_cons.mp hmem with hmem | hmem
          · exact hv hmem.symm
          · exact hres.1 hmem
        · by_cases hs : sv = "SILENT"
          · simp only [buildAttendanceLists, if_neg hm, hs, if_pos rfl]
            refine ⟨hres.1, ?_, hres.2.2⟩
            intro hmem
            rcases List.mem_cons.mp hmem with hmem | hmem
            · exact hv hmem.symm
            · exact hres.2.1 hmem
          · by_cases hx : sv = "MISSED"
            · simp only [buildAttendanceLists, if_neg hm, if_neg hs, hx,
                if_pos rfl]
              refine ⟨hres.1, hres.2.1, ?_⟩
              intro hmem
              rcases List.mem_cons.mp hmem with hmem | hmem
              · exact hv hmem.symm
              · exact hres.2.2 hmem
            · simpa only [buildAttendanceLists, if_neg hm, if_neg hs,
                if_neg hx] using hres

theorem unknown_status_scored_as_missed_witness :
    ("BOGUS" : String) ≠ "MADE" ∧ ("BOGUS" : String) ≠ "SILENT" ∧
    ("BOGUS" : String) ≠ "MISSED" ∧
    ((∀ c', getCall
        (recordResponse (⟨2, [mkCall 1 1 true []]⟩ : Store) 1 "u" "BOGUS") 1 =
          some c' → lookupK "u" c'.attendance = some "BOGUS") ∧
    (0 < (mkCall 1 1 true [("u", "BOGUS")]).points →
      lookupK "u" (mkCall 1 1 true [("u", "BOGUS")]).attendance = some "BOGUS" →
      (scoreStep "u" ⟨0, 0, 0, 0, 0, 0⟩ (mkCall 1 1 true [("u", "BOGUS")])).earned = (0 : ℚ) ∧
      (scoreStep "u" ⟨0, 0, 0, 0, 0, 0⟩ (mkCall 1 1 true [("u", "BOGUS")])).missed = 0 + 1 ∧
      (scoreStep "u" ⟨0, 0, 0, 0, 0, 0⟩ (mkCall 1 1 true [("u", "BOGUS")])).made = 0 ∧
      (scoreStep "u" ⟨0, 0, 0, 0, 0, 0⟩ (mkCall 1 1 true [("u", "BOGUS")])).silent = 0 ∧
      (scoreStep "u" ⟨0, 0, 0, 0, 0, 0⟩ (mkCall 1 1 true [("u", "BOGUS")])).possible =
        (0 : ℚ) + (if (mkCall 1 1 true [("u", "BOGUS")]).countsAgainst then
          (mkCall 1 1 true [("u", "BOGUS")]).points else 0)) ∧
    (∀ att : List (String × String), lookupK "u" att = some "BOGUS" →
      (att.map Prod.fst).Nodup →
      "u" ∉ (buildAttendanceLists att).1 ∧
      "u" ∉ (buildAttendanceLists att).2.1 ∧
      "u" ∉ (buildAttendanceLists att).2.2)) :=
  ⟨by decide, by decide, by decide,
    unknown_status_scored_as_missed (⟨2, [mkCall 1 1 true []]⟩ : Store) 1 "u"
      "BOGUS" ⟨0, 0, 0, 0, 0, 0⟩ (mkCall 1 1 true [("u", "BOGUS")])
      (by decide) (by decide) (by decide)⟩

